import Mathlib

/-!
Verification of the Distributed Video Engine rendering pipeline.

The definitions below are a shallow embedding of the pipeline code:

* `plan_chunks`, `run_parallel_num_chunks`, `run_parallel_finish`,
  `merge_chunks_run`, `sweep_powers`, `run_scaling_sweep_worker_counts` and
  `display_results_amdahl` embed the corresponding parts of
  `src/render_engine.py` (functions `plan_chunks`, `run_parallel`,
  `merge_chunks`, `run_scaling_sweep`, `display_results`).
* `run_render_task_trace`, `run_render_task_final`, `initJob` and
  `create_job_workers` embed the job-lifecycle logic of `server.py`
  (functions `run_render_task` and `create_job`).

Python floats are modelled as rationals, Python ints as `Int`/`Nat`, and
external-tool invocations (ffmpeg/ffprobe subprocess calls) as boolean or
`Option String` outcome parameters: an invocation either succeeds or fails
with a captured message.  The engine variant the server imports
(`run_parallel` with a progress callback, `benchmark_serial`) is not part of
the repository tree; the progress values it feeds to the callback are
modelled from the spec in `engine_progress_updates`.
-/

/-- Zero padding used by the `chunk_{i:03d}.mp4` format string of
`plan_chunks` in `src/render_engine.py`. -/
def pad3 (i : ℕ) : String :=
  if i < 10 then "00" ++ toString i
  else if i < 100 then "0" ++ toString i
  else toString i

/-- The `ChunkTask` dataclass of `src/render_engine.py`. -/
structure ChunkTask where
  chunk_id : ℕ
  start : ℚ
  duration : ℚ
  input_path : String
  output_path : String
deriving DecidableEq, Repr, Inhabited

/-- `plan_chunks` of `src/render_engine.py` (lines 107-130): divide the total
duration evenly, the last chunk taking whatever remains. -/
def plan_chunks (input_path : String) (duration : ℚ) (num_chunks : ℕ)
    (temp_dir : String) : List ChunkTask :=
  let chunk_duration := duration / (num_chunks : ℚ)
  (List.range num_chunks).map fun (i : ℕ) =>
    let start := (i : ℚ) * chunk_duration
    let chunk_dur := if i < num_chunks - 1 then chunk_duration else duration - start
    { chunk_id := i
      start := start
      duration := chunk_dur
      input_path := input_path
      output_path := temp_dir ++ "/chunk_" ++ pad3 i ++ ".mp4" }

/-- The chunk-count computation at the top of `run_parallel` in
`src/render_engine.py` (lines 279-280): `num_chunks = int(num_workers * 1.5)`
followed by `num_chunks = max(num_chunks, num_workers)`.  Python `int` on a
nonnegative float truncates, which is the floor. -/
def run_parallel_num_chunks (num_workers : ℕ) : ℕ :=
  max (Int.toNat ⌊(num_workers : ℚ) * 1.5⌋) num_workers

/-- The `ChunkResult` dataclass of `src/render_engine.py`. -/
structure ChunkResult where
  chunk_id : ℕ
  success : Bool
  elapsed : ℚ
  error : Option String
deriving DecidableEq, Repr

/-- The failure check and merge step at the end of `run_parallel` in
`src/render_engine.py` (lines 339-349), applied once every chunk result has
been collected.  Returns the run outcome together with a flag recording
whether the merge was invoked.  The exception messages are the exact strings
raised by the source: `f"{len(failed)} chunks failed"` and `"Merge failed"`. -/
def run_parallel_finish (results : List ChunkResult) (merge_ok : Bool) :
    Except String Unit × Bool :=
  let failed := results.filter fun r => !r.success
  if 0 < failed.length then
    (Except.error (toString failed.length ++ " chunks failed"), false)
  else if merge_ok then
    (Except.ok (), true)
  else
    (Except.error ("Merge failed"), true)

/-- `merge_chunks` of `src/render_engine.py` (lines 171-211): try the stream
copy concatenation; only when that subprocess fails, run the re-encode
concatenation.  The two boolean parameters are the outcomes of the two
possible ffmpeg invocations.  Returns (returned success flag, whether the
re-encode fallback was invoked). -/
def merge_chunks_run (fast_ok reencode_ok : Bool) : Bool × Bool :=
  if fast_ok then (true, false) else (reencode_ok, true)

/-- Output-file model for the merge: the external encoder writes the
destination file exactly when the invocation it performed succeeded, so an
output exists after `merge_chunks` precisely when the returned flag is true. -/
def merge_output_exists (fast_ok reencode_ok : Bool) : Bool :=
  (merge_chunks_run fast_ok reencode_ok).1

/-- The doubling loop of `run_scaling_sweep` in `src/render_engine.py`
(lines 371-374): `w = 2; while w <= max_workers: append w; w *= 2`.
The structural `fuel` argument bounds the number of iterations so the
definition computes; `sweep_powers_fuel_stable` below shows the result does
not depend on the fuel once the fuel is large enough, and the call site
passes `max_workers` fuel, which `sweep_powers_fuel_enough` shows is always
large enough, so this is the exact loop of the source. -/
def sweep_powers (fuel w max_workers : ℕ) : List ℕ :=
  match fuel with
  | 0 => []
  | fuel + 1 =>
    if w ≤ max_workers then w :: sweep_powers fuel (w * 2) max_workers
    else []

/-- The worker-count series built by `run_scaling_sweep` in
`src/render_engine.py` (lines 367-380): start from `[1]`, append the powers
of two up to `max_workers`, append `max_workers` if absent, then
`sorted(set(...))`. -/
def run_scaling_sweep_worker_counts (max_workers : ℕ) : List ℕ :=
  let worker_counts := 1 :: sweep_powers max_workers 2 max_workers
  let worker_counts :=
    if max_workers ∈ worker_counts then worker_counts
    else worker_counts ++ [max_workers]
  List.insertionSort (· ≤ ·) worker_counts.dedup

/-- The three numbers printed by the Amdahl block of `display_results`. -/
structure AmdahlReport where
  serial_fraction : ℚ
  theoretical_max : ℚ
  achieved_fraction : ℚ
deriving DecidableEq, Repr

/-- The Amdahl analysis of `display_results` in `src/render_engine.py`
(lines 446-462): when the actual speedup is below the worker count, compute
the serial-fraction estimate `(1 - A/N) / (1 - 1/N)`, clamp it to [0, 1],
derive the theoretical maximum speedup and cap it at `2N`; otherwise nothing
is reported. -/
def display_results_amdahl (serial_time best_time : ℚ) (max_workers : ℕ) :
    Option AmdahlReport :=
  let actual_speedup := serial_time / best_time
  if actual_speedup < (max_workers : ℚ) then
    let serial_fraction := (1 - actual_speedup / (max_workers : ℚ)) / (1 - 1 / (max_workers : ℚ))
    let serial_fraction := max 0 (min 1 serial_fraction)
    let theoretical_max := if 0 < serial_fraction then 1 / serial_fraction else (max_workers : ℚ)
    let theoretical_max := min theoretical_max ((max_workers : ℚ) * 2)
    some { serial_fraction := serial_fraction
           theoretical_max := theoretical_max
           achieved_fraction := actual_speedup / theoretical_max }
  else
    none

/-- The fields of a `JOBS` record in `server.py` that the lifecycle claims
are about: `status`, `phase`, `progress`, `error`, `output`, plus a flag for
the existence of the per-job temporary directory `TEMP_BASE / job_id`.
The remaining record fields (workers, filter chain, timestamps, smart
config, comparison report) are never constrained by the lifecycle logic
modelled here. -/
structure JobRec where
  status : String
  phase : String
  progress : ℕ
  error : Option String
  output : Option String
  tempExists : Bool
deriving DecidableEq, Repr

/-- The record stored by `create_job` in `server.py` (lines 425-437) before
the background task starts: status and phase `queued`, progress 0, no error,
no output, no temporary directory yet. -/
def initJob : JobRec :=
  { status := "queued"
    phase := "queued"
    progress := 0
    error := none
    output := none
    tempExists := false }

/-- The `except` block of `run_render_task` in `server.py` (lines 312-315):
status becomes `failed`, phase is forced to the terminal marker
`completed`, the message is recorded, and progress is left untouched. -/
def applyFail (j : JobRec) (msg : String) : JobRec :=
  { j with status := "failed", phase := "completed", error := some msg }

/-- The `finally` block of `run_render_task` in `server.py` (lines 321-324):
the per-job temporary directory is removed. -/
def removeTemp (j : JobRec) : JobRec :=
  { j with tempExists := false }

/-- The success epilogue of `run_render_task` in `server.py` (lines
296-300): status `completed`, phase `completed`, progress 100, output path
`/outputs/output_{job_id}.mp4`. -/
def jobSuccess (job_id : String) (j : JobRec) : JobRec :=
  { j with status := "completed"
           phase := "completed"
           progress := 100
           output := some ("/outputs/output_" ++ job_id ++ ".mp4") }

/-- One job-record snapshot per invocation of the `on_progress` callback of
`run_render_task` in `server.py` (lines 279-280), which stores the reported
value into the job record. -/
def progressSnapshots (j : JobRec) (updates : List ℕ) : List JobRec :=
  match updates with
  | [] => []
  | p :: rest =>
    { j with progress := p } :: progressSnapshots { j with progress := p } rest

/-- Modelled from the spec: the engine variant imported by `server.py`
(`run_parallel` with a `progress_callback` argument) is not in the
repository tree.  Per spec section 4.3 the callback fires once per completed
segment out of `n`, so the job-progress values it stores are the successive
completion percentages `100*(k+1)/n` for `k = 0, ..., n-1`. -/
def engine_progress_updates (n : ℕ) : List ℕ :=
  (List.range n).map fun k => 100 * (k + 1) / n

/-- The sequence of job-record states written by `run_render_task` in
`server.py` (lines 221-324), one snapshot per mutation of the record.  The
parameters `analyze`, `bench` and `par` give the outcome of the three
phases that can raise (`some msg` is an exception carrying `msg`), and
`updates` lists the values the parallel phase feeds to the progress
callback before its outcome is decided. -/
def run_render_task_trace (job_id : String) (analyze bench par : Option String)
    (updates : List ℕ) (j0 : JobRec) : List JobRec :=
  let j1 := { j0 with status := "processing" }
  let j2 := { j1 with phase := "analyzing", tempExists := true }
  match analyze with
  | some msg => [j1, j2, applyFail j2 msg, removeTemp (applyFail j2 msg)]
  | none =>
    let j3 := { j2 with phase := "benchmarking" }
    match bench with
    | some msg => [j1, j2, j3, applyFail j3 msg, removeTemp (applyFail j3 msg)]
    | none =>
      let j4 := { j3 with phase := "parallel" }
      let snaps := progressSnapshots j4 updates
      let j5 := updates.foldl (fun j p => { j with progress := p }) j4
      match par with
      | some msg =>
        [j1, j2, j3, j4] ++ snaps ++ [applyFail j5 msg, removeTemp (applyFail j5 msg)]
      | none =>
        [j1, j2, j3, j4] ++ snaps ++ [jobSuccess job_id j5, removeTemp (jobSuccess job_id j5)]

/-- The final job-record state left by `run_render_task` in `server.py`,
after the `finally` cleanup; the last element of `run_render_task_trace`. -/
def run_render_task_final (job_id : String) (analyze bench par : Option String)
    (updates : List ℕ) (j0 : JobRec) : JobRec :=
  let j1 := { j0 with status := "processing" }
  let j2 := { j1 with phase := "analyzing", tempExists := true }
  match analyze with
  | some msg => removeTemp (applyFail j2 msg)
  | none =>
    let j3 := { j2 with phase := "benchmarking" }
    match bench with
    | some msg => removeTemp (applyFail j3 msg)
    | none =>
      let j4 := { j3 with phase := "parallel" }
      let j5 := updates.foldl (fun j p => { j with progress := p }) j4
      match par with
      | some msg => removeTemp (applyFail j5 msg)
      | none => removeTemp (jobSuccess job_id j5)

/-- The phase whose exception message, if any, ends up in the job record:
the first of analyze, benchmark, parallel that raised. -/
def first_error : Option String → Option String → Option String → Option String
  | some m, _, _ => some m
  | none, some m, _ => some m
  | none, none, p => p

/-- Python truthiness of `a or b` on an optional int: `None` and `0` are
falsy. -/
def py_or_int (a : Option Int) (b : Int) : Int :=
  match a with
  | none => b
  | some v => if v = 0 then b else v

/-- Python truthiness of `a or b` on an optional nonnegative int. -/
def py_or_nat (a : Option ℕ) (b : ℕ) : ℕ :=
  match a with
  | none => b
  | some v => if v = 0 then b else v

/-- The worker-count validation of `create_job` in `server.py` (lines
418-420): `workers = job_req.workers or os.cpu_count() or 4`, then reject
with HTTP 400 when `workers < 1`.  `requested` is the body field (absent or
any int), `cpu_count` is the `os.cpu_count()` result (absent or a count). -/
def create_job_workers (requested : Option Int) (cpu_count : Option ℕ) :
    Except ℕ Int :=
  let workers := py_or_int requested (py_or_nat cpu_count 4 : ℕ)
  if workers < 1 then Except.error 400 else Except.ok workers

/-! ## Helper lemmas -/

theorem sweep_powers_fuel_stable :
    ∀ (f₁ f₂ w m : ℕ), m + 1 ≤ w * 2 ^ f₁ → m + 1 ≤ w * 2 ^ f₂ →
      sweep_powers f₁ w m = sweep_powers f₂ w m := by
  intro f₁
  induction f₁ with
  | zero =>
    intro f₂ w m h₁ h₂
    rw [pow_zero, mul_one] at h₁
    have hw : ¬ w ≤ m := by omega
    cases f₂ with
    | zero => rfl
    | succ g => simp [sweep_powers, hw]
  | succ f ih =>
    intro f₂ w m h₁ h₂
    cases f₂ with
    | zero =>
      rw [pow_zero, mul_one] at h₂
      have hw : ¬ w ≤ m := by omega
      simp [sweep_powers, hw]
    | succ g =>
      by_cases hw : w ≤ m
      · have e₁ : w * 2 ^ (f + 1) = w * 2 * 2 ^ f := by ring
        have e₂ : w * 2 ^ (g + 1) = w * 2 * 2 ^ g := by ring
        rw [e₁] at h₁
        rw [e₂] at h₂
        simp only [sweep_powers, if_pos hw]
        exact congrArg _ (ih g (w * 2) m h₁ h₂)
      · simp [sweep_powers, hw]

theorem sweep_powers_fuel_enough (m : ℕ) : m + 1 ≤ 2 * 2 ^ m := by
  have h := Nat.lt_two_pow m
  have h2 : 2 ^ m ≤ 2 * 2 ^ m := Nat.le_mul_of_pos_left _ (by norm_num)
  omega

theorem sweep_powers_mem :
    ∀ (fuel w m x : ℕ), x ∈ sweep_powers fuel w m →
      (∃ k, x = w * 2 ^ k) ∧ w ≤ x ∧ x ≤ m := by
  intro fuel
  induction fuel with
  | zero => intro w m x hx; simp [sweep_powers] at hx
  | succ f ih =>
    intro w m x hx
    by_cases hw : w ≤ m
    · simp only [sweep_powers, if_pos hw, List.mem_cons] at hx
      rcases hx with rfl | hx
      · exact ⟨⟨0, by rw [pow_zero, mul_one]⟩, le_refl x, hw⟩
      · obtain ⟨⟨k, hk⟩, hle, hub⟩ := ih (w * 2) m x hx
        refine ⟨⟨k + 1, by rw [hk]; ring⟩, ?_, hub⟩
        have : w ≤ w * 2 := by omega
        omega
    · simp [sweep_powers, hw] at hx

theorem run_parallel_num_chunks_eq (W : ℕ) :
    run_parallel_num_chunks W = 3 * W / 2 := by
  have h15 : ((W : ℚ)) * 1.5 = ((3 * W : ℕ) : ℚ) / ((2 : ℕ) : ℚ) := by
    push_cast
    ring
  unfold run_parallel_num_chunks
  rw [h15, Int.floor_toNat, Nat.floor_div_eq_div]
  omega

/-! ## Claim theorems -/

/-- C2 (corrected): for every worker count `W ≥ 1` the number of segments a
parallel run plans is `max(W, floor(1.5·W))`, i.e. `⌊3W/2⌋`, not
`max(W, round(1.5·W))`: Python `int()` truncates `1.5·W`. -/
theorem run_parallel_segment_count (W : ℕ) :
    run_parallel_num_chunks W = max W (3 * W / 2) ∧
    W ≤ run_parallel_num_chunks W := by
  rw [run_parallel_num_chunks_eq]
  omega

/-- C2 counterexample: at `W = 1` the code plans `int(1.5) = 1` segment while
the claimed formula `max(W, round(1.5·W))` gives `max(1, 2) = 2`. -/
theorem run_parallel_segment_count_counterexample :
    run_parallel_num_chunks 1 = 1 ∧
    max 1 (round ((1 : ℚ) * 1.5)).toNat = 2 := by
  constructor
  · rw [run_parallel_num_chunks_eq]
  · have h : round ((1 : ℚ) * 1.5) = 2 := by norm_num [round_eq]
    rw [h]
    rfl

/-- C10: a requested workers value of 0 is falsy in Python, so `create_job`
silently substitutes `os.cpu_count() or 4`; only a negative value reaches the
`workers < 1` check and is rejected with HTTP 400; every accepted job has
workers at least 1. -/
theorem create_job_workers_spec (cpu : Option ℕ) :
    create_job_workers (some 0) cpu = Except.ok ((py_or_nat cpu 4 : ℕ) : Int) ∧
    (∀ v : Int, v < 0 → create_job_workers (some v) cpu = Except.error 400) ∧
    (∀ req w, create_job_workers req cpu = Except.ok w → 1 ≤ w) := by
  have hcpu : 1 ≤ py_or_nat cpu 4 := by
    cases cpu with
    | none => norm_num [py_or_nat]
    | some n =>
      by_cases hn : n = 0 <;> simp [py_or_nat, hn]
      omega
  refine ⟨?_, ?_, ?_⟩
  · have hlt : ¬ ((py_or_nat cpu 4 : ℕ) : Int) < 1 := by
      omega
    simp [create_job_workers, py_or_int, hlt]
  · intro v hv
    have hv0 : ¬ v = 0 := by omega
    have hv1 : v < 1 := by omega
    simp [create_job_workers, py_or_int, hv0, hv1]
  · intro req w h
    simp only [create_job_workers] at h
    split at h
    · exact absurd h (by simp)
    · rename_i hge
      obtain rfl : w = py_or_int req ((py_or_nat cpu 4 : ℕ) : Int) := by
        cases h
        rfl
      omega

/-- C10 witness: requested 0 with 8 CPUs becomes 8; requested -2 is a 400. -/
theorem create_job_workers_spec_witness :
    create_job_workers (some 0) (some 8) = Except.ok 8 ∧
    create_job_workers (some (-2)) (some 8) = Except.error 400 := by
  obtain ⟨h1, h2, _⟩ := create_job_workers_spec (some 8)
  exact ⟨by simpa using h1, h2 (-2) (by norm_num)⟩

/-- C3 (amended): if any segment result reports failure, `run_parallel`
fails after all results are collected, without invoking the merge and with
no output produced; the aggregate error reports only the number of failed
segments (the string `"{n} chunks failed"`), not their ids or diagnostics. -/
theorem run_parallel_failure_aggregate (results : List ChunkResult) (merge_ok : Bool)
    (h : ∃ r ∈ results, r.success = false) :
    run_parallel_finish results merge_ok =
      (Except.error (toString (results.filter fun r => !r.success).length ++ " chunks failed"),
        false) := by
  obtain ⟨r, hr, hs⟩ := h
  have hmem : r ∈ results.filter fun r => !r.success :=
    List.mem_filter.mpr ⟨hr, by simp [hs]⟩
  have hlen : 0 < (results.filter fun r => !r.success).length :=
    List.length_pos_of_mem hmem
  simp only [run_parallel_finish, if_pos hlen]

/-- C3 witness: one failed segment out of one gives the count-only error and
no merge invocation. -/
theorem run_parallel_failure_aggregate_witness :
    run_parallel_finish
        [{ chunk_id := 3, success := false, elapsed := 1, error := some ("boom") }] true =
      (Except.error ("1 chunks failed"), false) := by
  have h := run_parallel_failure_aggregate
    [{ chunk_id := 3, success := false, elapsed := 1, error := some ("boom") }] true
    ⟨{ chunk_id := 3, success := false, elapsed := 1, error := some ("boom") },
      List.mem_singleton.mpr rfl, rfl⟩
  exact h

/-- C3 counterexample: with segment 3 failed with diagnostic text `boom`, the
aggregate error is `"1 chunks failed"`: it names neither the failed segment
id nor the captured diagnostic text, contrary to the claim. -/
theorem run_parallel_failure_aggregate_counterexample :
    run_parallel_finish
        [{ chunk_id := 0, success := true, elapsed := 1, error := none },
         { chunk_id := 3, success := false, elapsed := 1, error := some ("boom") }] true =
      (Except.error ("1 chunks failed"), false) ∧
    ¬ ("3".toList <:+: "1 chunks failed".toList) ∧
    ¬ ("boom".toList <:+: "1 chunks failed".toList) := by
  refine ⟨rfl, by decide, by decide⟩

/-- C6: the Reassembler tries the fast stream-copy concatenation first and
invokes the full re-encode only when the fast invocation fails; when both
fail the merge returns failure, `run_parallel` raises the merge error, and no
output file exists. -/
theorem merge_fast_then_fallback (fast_ok reencode_ok : Bool) :
    (merge_chunks_run fast_ok reencode_ok).2 = !fast_ok ∧
    (merge_chunks_run fast_ok reencode_ok).1 = (fast_ok || reencode_ok) ∧
    (fast_ok = false → reencode_ok = false →
      (merge_chunks_run fast_ok reencode_ok).1 = false ∧
      merge_output_exists fast_ok reencode_ok = false) ∧
    (∀ results : List ChunkResult, (∀ r ∈ results, r.success = true) →
      run_parallel_finish results false = (Except.error ("Merge failed"), true)) := by
  refine ⟨?_, ?_, ?_, ?_⟩
  · cases fast_ok <;> simp [merge_chunks_run]
  · cases fast_ok <;> simp [merge_chunks_run]
  · intro h1 h2
    subst h1
    subst h2
    exact ⟨rfl, rfl⟩
  · intro results hall
    have hnil : results.filter (fun r => !r.success) = [] := by
      rw [List.filter_eq_nil_iff]
      intro a ha
      simp [hall a ha]
    simp [run_parallel_finish, hnil]

/-- C6 witness: both concatenations failing yields failure with the fallback
having been invoked, no output file, and the merge error raised. -/
theorem merge_fast_then_fallback_witness :
    (merge_chunks_run false false).1 = false ∧
    (merge_chunks_run false false).2 = true ∧
    merge_output_exists false false = false ∧
    run_parallel_finish [] false = (Except.error ("Merge failed"), true) := by
  obtain ⟨h1, h2, h3, h4⟩ := merge_fast_then_fallback false false
  exact ⟨(h3 rfl rfl).1, by simpa using h1, (h3 rfl rfl).2, h4 [] (by simp)⟩

/-- C4 (amended): when the sweep result at `N` workers is a success and the
actual speedup `A = S0/time` satisfies `A < N`, the reported serial fraction
is the clamp to [0,1] of the first-order estimate `(1 - A/N) / (1 - 1/N)`
(not the exact solution of `A = 1/(f + (1-f)/N)`), and the reported
theoretical maximum speedup is `1/f` when `f > 0`, else `N`, capped at `2N`;
the achieved speedup is reported as a fraction of that maximum. -/
theorem amdahl_analysis_report (s b : ℚ) (N : ℕ) (hA : s / b < (N : ℚ)) :
    (display_results_amdahl s b N).isSome = true ∧
    (∀ r, display_results_amdahl s b N = some r →
      r.serial_fraction = max 0 (min 1 ((1 - (s / b) / N) / (1 - 1 / N))) ∧
      0 ≤ r.serial_fraction ∧ r.serial_fraction ≤ 1 ∧
      (0 < r.serial_fraction →
        r.theoretical_max = min (1 / r.serial_fraction) ((N : ℚ) * 2)) ∧
      (r.serial_fraction = 0 → r.theoretical_max = (N : ℚ)) ∧
      r.theoretical_max ≤ (N : ℚ) * 2 ∧
      r.achieved_fraction = (s / b) / r.theoretical_max) := by
  have hN : (0 : ℚ) ≤ (N : ℚ) := by positivity
  constructor
  · simp [display_results_amdahl, if_pos hA]
  · intro r hr
    simp only [display_results_amdahl, if_pos hA, Option.some.injEq] at hr
    subst hr
    dsimp only
    refine ⟨rfl, le_max_left _ _, ?_, ?_, ?_, min_le_right _ _, rfl⟩
    · exact max_le (by norm_num) (min_le_left _ _)
    · intro hf
      rw [if_pos hf]
    · intro hf
      rw [hf, if_neg (lt_irrefl 0), min_eq_left (by linarith)]

/-- C4 witness: serial time 2, parallel time 1 at 4 workers gives speedup 2,
below 4, so a report is produced. -/
theorem amdahl_analysis_report_witness :
    (display_results_amdahl 2 1 4).isSome = true :=
  (amdahl_analysis_report 2 1 4 (by norm_num)).1

/-- C4 counterexample: with serial time 2, parallel time 1 and 4 workers the
code reports serial fraction 2/3, but the exact solution of
`A = 1/(f + (1-f)/N)` at `A = 2`, `N = 4` is 1/3: the reported fraction does
not satisfy the claimed equation. -/
theorem amdahl_analysis_report_counterexample :
    display_results_amdahl 2 1 4 =
      some { serial_fraction := 2/3, theoretical_max := 3/2, achieved_fraction := 4/3 } ∧
    ¬ ((2 : ℚ) / 1 = 1 / (2/3 + (1 - 2/3) / 4)) ∧
    (2 : ℚ) / 1 = 1 / (1/3 + (1 - 1/3) / 4) := by
  refine ⟨?_, by norm_num, by norm_num⟩
  norm_num [display_results_amdahl]

theorem mem_worker_counts {m x : ℕ}
    (hx : x ∈ run_scaling_sweep_worker_counts m) :
    x = 1 ∨ x = m ∨ ((∃ k, x = 2 * 2 ^ k) ∧ x ≤ m) := by
  simp only [run_scaling_sweep_worker_counts] at hx
  rw [(List.perm_insertionSort _ _).mem_iff, List.mem_dedup] at hx
  have hbase :
      x ∈ 1 :: sweep_powers m 2 m → x = 1 ∨ x = m ∨ ((∃ k, x = 2 * 2 ^ k) ∧ x ≤ m) := by
    intro hb
    rcases List.mem_cons.mp hb with rfl | hb
    · exact Or.inl rfl
    · obtain ⟨hk, _, hub⟩ := sweep_powers_mem m 2 m x hb
      exact Or.inr (Or.inr ⟨hk, hub⟩)
  split at hx
  · exact hbase hx
  · rcases List.mem_append.mp hx with hb | hm
    · exact hbase hb
    · exact Or.inr (Or.inl (List.mem_singleton.mp hm))

theorem max_mem_worker_counts (m : ℕ) : m ∈ run_scaling_sweep_worker_counts m := by
  simp only [run_scaling_sweep_worker_counts]
  rw [(List.perm_insertionSort _ _).mem_iff, List.mem_dedup]
  split
  · assumption
  · exact List.mem_append.mpr (Or.inr (List.mem_singleton.mpr rfl))

theorem one_mem_worker_counts (m : ℕ) : 1 ∈ run_scaling_sweep_worker_counts m := by
  simp only [run_scaling_sweep_worker_counts]
  rw [(List.perm_insertionSort _ _).mem_iff, List.mem_dedup]
  split
  · exact List.mem_cons_self _ _
  · exact List.mem_append.mpr (Or.inl (List.mem_cons_self _ _))

theorem worker_counts_nodup (m : ℕ) : (run_scaling_sweep_worker_counts m).Nodup := by
  simp only [run_scaling_sweep_worker_counts]
  rw [(List.perm_insertionSort _ _).nodup_iff]
  exact List.nodup_dedup _

theorem worker_counts_sorted (m : ℕ) :
    (run_scaling_sweep_worker_counts m).Sorted (· ≤ ·) :=
  List.sorted_insertionSort _ _

theorem head?_eq_one_of_sorted {L : List ℕ} (hs : L.Sorted (· ≤ ·)) (h1 : 1 ∈ L)
    (hlb : ∀ x ∈ L, 1 ≤ x) : L.head? = some 1 := by
  cases L with
  | nil => cases h1
  | cons a t =>
    have ha : a = 1 := by
      rcases List.mem_cons.mp h1 with h | h
      · omega
      · have hle := (List.pairwise_cons.mp hs).1 1 h
        have hge := hlb a (List.mem_cons_self a t)
        omega
    rw [ha]
    rfl

/-- C5: for every requested maximum `M ≥ 1` the scaling-sweep worker series
starts at 1, is strictly increasing, contains only powers of two below `M`
plus `M` itself, and contains `M` exactly once. -/
theorem scaling_sweep_worker_series (M : ℕ) (hM : 1 ≤ M) :
    (run_scaling_sweep_worker_counts M).head? = some 1 ∧
    List.Pairwise (· < ·) (run_scaling_sweep_worker_counts M) ∧
    (∀ x ∈ run_scaling_sweep_worker_counts M, (∃ k, x = 2 ^ k ∧ x < M) ∨ x = M) ∧
    List.count M (run_scaling_sweep_worker_counts M) = 1 := by
  have hmemchar : ∀ x ∈ run_scaling_sweep_worker_counts M,
      (∃ k, x = 2 ^ k ∧ x < M) ∨ x = M := by
    intro x hx
    rcases mem_worker_counts hx with rfl | rfl | ⟨⟨k, rfl⟩, hub⟩
    · by_cases hxm : 1 = M
      · exact Or.inr hxm
      · exact Or.inl ⟨0, rfl, by omega⟩
    · exact Or.inr rfl
    · by_cases hxm : 2 * 2 ^ k = M
      · exact Or.inr hxm
      · refine Or.inl ⟨k + 1, by ring, lt_of_le_of_ne hub hxm⟩
  refine ⟨?_, ?_, hmemchar, ?_⟩
  · refine head?_eq_one_of_sorted (worker_counts_sorted M) (one_mem_worker_counts M) ?_
    intro x hx
    rcases mem_worker_counts hx with rfl | rfl | ⟨⟨k, rfl⟩, _⟩
    · exact le_refl 1
    · exact hM
    · have : 0 < 2 * 2 ^ k := by positivity
      omega
  · exact ((worker_counts_sorted M).and (worker_counts_nodup M)).imp
      fun h => lt_of_le_of_ne h.1 h.2
  · exact List.nodup_iff_count_eq_one.mp (worker_counts_nodup M) M
      (max_mem_worker_counts M)

/-- C5 witness: the sweep series for `M = 8` is `[1, 2, 4, 8]` and satisfies
all four parts of the claim. -/
theorem scaling_sweep_worker_series_witness :
    (run_scaling_sweep_worker_counts 8).head? = some 1 ∧
    List.Pairwise (· < ·) (run_scaling_sweep_worker_counts 8) ∧
    (∀ x ∈ run_scaling_sweep_worker_counts 8, (∃ k, x = 2 ^ k ∧ x < 8) ∨ x = 8) ∧
    List.count 8 (run_scaling_sweep_worker_counts 8) = 1 :=
  scaling_sweep_worker_series 8 (by norm_num)

theorem plan_chunks_eq_uniform (ip td : String) (D : ℚ) (C : ℕ) (hC : 1 ≤ C) :
    plan_chunks ip D C td = (List.range C).map fun (i : ℕ) =>
      { chunk_id := i
        start := (i : ℚ) * (D / (C : ℚ))
        duration := D / (C : ℚ)
        input_path := ip
        output_path := td ++ "/chunk_" ++ pad3 i ++ ".mp4" } := by
  unfold plan_chunks
  apply List.map_congr_left
  intro i hi
  rw [List.mem_range] at hi
  by_cases hlt : i < C - 1
  · simp [hlt]
  · have hieq : i = C - 1 := by omega
    subst hieq
    have hC0 : (C : ℚ) ≠ 0 := Nat.cast_ne_zero.mpr (by omega)
    have hcast : ((C - 1 : ℕ) : ℚ) = (C : ℚ) - 1 := by
      push_cast [Nat.cast_sub hC]
      ring
    have hdur : D - ((C - 1 : ℕ) : ℚ) * (D / (C : ℚ)) = D / (C : ℚ) := by
      rw [hcast]
      field_simp
      ring
    simp only [if_neg hlt, hdur]

theorem iUnion_Ico_uniform (δ : ℚ) (hδ : 0 ≤ δ) :
    ∀ n : ℕ,
      (⋃ i ∈ Finset.range n, Set.Ico ((i : ℚ) * δ) (((i : ℚ) + 1) * δ)) =
        Set.Ico 0 ((n : ℚ) * δ) := by
  intro n
  induction n with
  | zero => simp
  | succ k ih =>
    rw [Finset.range_succ, Finset.set_biUnion_insert, ih, Set.union_comm,
      Set.Ico_union_Ico_eq_Ico (by positivity)
        (by nlinarith), Nat.cast_succ]

/-- C1: for every duration `D > 0` and segment count `C ≥ 1`, `plan_chunks`
returns exactly `C` tasks whose ids are `0..C-1` in order, whose
`[start, start+duration)` intervals are contiguous, pairwise disjoint, and
whose union is exactly `[0, D)`, the last task absorbing the remainder. -/
theorem plan_chunks_partition (ip td : String) (D : ℚ) (C : ℕ)
    (hD : 0 < D) (hC : 1 ≤ C) :
    (plan_chunks ip D C td).length = C ∧
    (plan_chunks ip D C td).map ChunkTask.chunk_id = List.range C ∧
    (∀ i : ℕ, i + 1 < C →
      ((plan_chunks ip D C td).getD i default).start +
        ((plan_chunks ip D C td).getD i default).duration =
        ((plan_chunks ip D C td).getD (i + 1) default).start) ∧
    List.Pairwise (fun t₁ t₂ =>
      Disjoint (Set.Ico t₁.start (t₁.start + t₁.duration))
        (Set.Ico t₂.start (t₂.start + t₂.duration))) (plan_chunks ip D C td) ∧
    (⋃ t ∈ plan_chunks ip D C td, Set.Ico t.start (t.start + t.duration)) =
      Set.Ico 0 D := by
  have hC0 : (0 : ℚ) < (C : ℚ) := by exact_mod_cast (by omega : 0 < C)
  have hδ : 0 < D / (C : ℚ) := div_pos hD hC0
  rw [plan_chunks_eq_uniform ip td D C hC]
  set δ := D / (C : ℚ) with hδdef
  refine ⟨?_, ?_, ?_, ?_, ?_⟩
  · simp
  · rw [List.map_map]
    conv_rhs => rw [← List.map_id (List.range C)]
    exact List.map_congr_left fun a _ => rfl
  · intro i hi
    rw [List.getD_eq_getElem?_getD, List.getD_eq_getElem?_getD, List.getElem?_map,
      List.getElem?_map, List.getElem?_range (by omega), List.getElem?_range (by omega)]
    simp only [Option.map_some', Option.getD_some]
    push_cast
    ring
  · rw [List.pairwise_map]
    refine (List.pairwise_lt_range C).imp ?_
    intro a b hab
    dsimp only
    rw [Set.Ico_disjoint_Ico]
    have hcast : ((a : ℚ) + 1) ≤ (b : ℚ) := by exact_mod_cast (by omega : a + 1 ≤ b)
    have h1 : (a : ℚ) * δ + δ ≤ (b : ℚ) * δ := by nlinarith [hδ.le]
    exact le_trans inf_le_left (le_trans h1 le_sup_right)
  · refine Eq.trans ?_ (?_ : (⋃ i ∈ Finset.range C,
        Set.Ico ((i : ℚ) * δ) (((i : ℚ) + 1) * δ)) = Set.Ico 0 D)
    · ext x
      simp only [Set.mem_iUnion, List.mem_map, List.mem_range, Finset.mem_range,
        Set.mem_Ico, exists_prop]
      constructor
      · rintro ⟨t, ⟨i, hi, rfl⟩, hx1, hx2⟩
        refine ⟨i, hi, hx1, ?_⟩
        have he : ((i : ℚ) + 1) * δ = (i : ℚ) * δ + δ := by ring
        rw [he]
        exact hx2
      · rintro ⟨i, hi, hx1, hx2⟩
        refine ⟨_, ⟨i, hi, rfl⟩, hx1, ?_⟩
        have he : ((i : ℚ) + 1) * δ = (i : ℚ) * δ + δ := by ring
        rw [← he]
        exact hx2
    · rw [iUnion_Ico_uniform δ hδ.le C]
      have hCd : (C : ℚ) * δ = D := by
        rw [hδdef, mul_comm, div_mul_cancel₀ D (ne_of_gt hC0)]
      rw [hCd]

/-- C1 witness: a 30 second input split into 6 segments of 5 seconds each
partitions `[0, 30)` exactly. -/
theorem plan_chunks_partition_witness :
    (plan_chunks "input.mp4" 30 6 ".temp_chunks").length = 6 ∧
    (⋃ t ∈ plan_chunks "input.mp4" 30 6 ".temp_chunks",
        Set.Ico t.start (t.start + t.duration)) = Set.Ico 0 30 := by
  obtain ⟨h1, _, _, _, h5⟩ :=
    plan_chunks_partition "input.mp4" ".temp_chunks" 30 6 (by norm_num) (by norm_num)
  exact ⟨h1, h5⟩

theorem foldl_progress (upd : List ℕ) (j : JobRec) :
    upd.foldl (fun j p => { j with progress := p }) j =
      { j with progress := upd.getLast?.getD j.progress } := by
  induction upd generalizing j with
  | nil => rfl
  | cons p rest ih =>
    rw [List.foldl_cons, ih]
    cases rest with
    | nil => rfl
    | cons q t =>
      rw [List.getLast?_cons_cons]
      have hne : (q :: t).getLast? ≠ none := by
        simp [List.getLast?_eq_none_iff]
      obtain ⟨y, hy⟩ := Option.ne_none_iff_exists'.mp hne
      rw [hy]
      rfl

theorem progressSnapshots_map_progress (upd : List ℕ) (j : JobRec) :
    (progressSnapshots j upd).map JobRec.progress = upd := by
  induction upd generalizing j with
  | nil => rfl
  | cons p rest ih =>
    simp only [progressSnapshots, List.map_cons, ih]

theorem engine_progress_updates_chain (n : ℕ) :
    List.Chain' (· ≤ ·) (engine_progress_updates n) := by
  apply List.Pairwise.chain'
  rw [engine_progress_updates, List.pairwise_map]
  refine (List.pairwise_lt_range n).imp ?_
  intro a b hab
  exact Nat.div_le_div_right (Nat.mul_le_mul_left 100 (by omega))

theorem engine_progress_updates_le {n x : ℕ}
    (hx : x ∈ engine_progress_updates n) : x ≤ 100 := by
  simp only [engine_progress_updates, List.mem_map, List.mem_range] at hx
  obtain ⟨k, hk, rfl⟩ := hx
  have h0 : 0 < n := by omega
  calc 100 * (k + 1) / n ≤ 100 * n / n :=
        Nat.div_le_div_right (Nat.mul_le_mul_left 100 (by omega))
    _ = 100 := Nat.mul_div_cancel 100 h0

theorem chain'_le_block (x y : ℕ) (upd : List ℕ)
    (hupd : List.Chain' (· ≤ ·) upd)
    (hlast : ∀ z ∈ upd.getLast?, z ≤ y)
    (hx : ∀ z ∈ ((upd ++ [y, y]) : List ℕ).head?, x ≤ z) :
    List.Chain' (· ≤ ·) (([x, x, x, x] ++ upd) ++ [y, y]) := by
  rw [List.append_assoc, List.chain'_append]
  refine ⟨?_, ?_, ?_⟩
  · simp [List.chain'_cons, List.chain'_singleton]
  · rw [List.chain'_append]
    refine ⟨hupd, ?_, ?_⟩
    · simp [List.chain'_cons, List.chain'_singleton]
    · intro z hz w hw
      simp only [List.head?, Option.mem_def, Option.some.injEq] at hw
      subst hw
      exact hlast z hz
  · intro z hz w hw
    simp only [List.getLast?_cons_cons, List.getLast?_singleton, Option.mem_def,
      Option.some.injEq] at hz
    subst hz
    exact hx w hw

/-- C7: any exception at any phase of `run_render_task` sets the job status
to `failed`, records the exception message in the error field, forces the
phase to the terminal marker `completed`, freezes progress at its last value
(the initial value for analyze/benchmark failures, the last reported
callback value for parallel failures), and the per-job working directory is
removed on every exit path, success or failure. -/
theorem job_failure_terminal (jid : String) (a b p : Option String)
    (upd : List ℕ) (j0 : JobRec) :
    (run_render_task_final jid a b p upd j0).tempExists = false ∧
    (∀ m, first_error a b p = some m →
      (run_render_task_final jid a b p upd j0).status = "failed" ∧
      (run_render_task_final jid a b p upd j0).phase = "completed" ∧
      (run_render_task_final jid a b p upd j0).error = some m ∧
      (run_render_task_final jid a b p upd j0).progress =
        (if a = none ∧ b = none then upd.getLast?.getD j0.progress
         else j0.progress)) := by
  cases a with
  | some m0 =>
    refine ⟨rfl, ?_⟩
    intro m hm
    obtain rfl : m0 = m := by
      simpa [first_error] using hm
    simp [run_render_task_final, applyFail, removeTemp]
  | none =>
    cases b with
    | some m0 =>
      refine ⟨rfl, ?_⟩
      intro m hm
      obtain rfl : m0 = m := by
        simpa [first_error] using hm
      simp [run_render_task_final, applyFail, removeTemp]
    | none =>
      cases p with
      | some m0 =>
        constructor
        · simp [run_render_task_final, applyFail, removeTemp, foldl_progress]
        · intro m hm
          obtain rfl : m0 = m := by
            simpa [first_error] using hm
          simp [run_render_task_final, applyFail, removeTemp, foldl_progress]
      | none =>
        refine ⟨?_, ?_⟩
        · simp [run_render_task_final, jobSuccess, removeTemp, foldl_progress]
        · intro m hm
          simp [first_error] at hm

/-- C7 witness: an exception with message `boom` during the analyzing phase
leaves a failed job with the terminal phase marker, the recorded message,
frozen progress, and no temporary directory. -/
theorem job_failure_terminal_witness :
    (run_render_task_final "j1" (some ("boom")) none none [] initJob).tempExists = false ∧
    (run_render_task_final "j1" (some ("boom")) none none [] initJob).status = "failed" ∧
    (run_render_task_final "j1" (some ("boom")) none none [] initJob).phase = "completed" ∧
    (run_render_task_final "j1" (some ("boom")) none none [] initJob).error = some ("boom") ∧
    (run_render_task_final "j1" (some ("boom")) none none [] initJob).progress = 0 := by
  obtain ⟨h1, h2⟩ := job_failure_terminal "j1" (some ("boom")) none none [] initJob
  obtain ⟨hs, hp, he, hpr⟩ := h2 "boom" rfl
  refine ⟨h1, hs, hp, he, ?_⟩
  simpa using hpr

/-- C8 (amended): with the engine feeding the monotone completion
percentages to the progress callback, a job's progress is monotonically
non-decreasing across its whole lifetime, and a completed job has progress
100; the converse direction of the claimed equivalence fails (see the
counterexample). -/
theorem job_progress_monotone (jid : String) (a b p : Option String) (n : ℕ) :
    List.Chain' (· ≤ ·)
      ((run_render_task_trace jid a b p (engine_progress_updates n) initJob).map
        JobRec.progress) ∧
    ((run_render_task_final jid a b p (engine_progress_updates n) initJob).status =
        "completed" →
      (run_render_task_final jid a b p (engine_progress_updates n) initJob).progress =
        100) := by
  cases a with
  | some m =>
    constructor
    · simp [run_render_task_trace, applyFail, removeTemp, initJob, List.chain'_cons,
        List.chain'_singleton]
    · intro h
      simp [run_render_task_final, applyFail, removeTemp] at h
  | none =>
    cases b with
    | some m =>
      constructor
      · simp [run_render_task_trace, applyFail, removeTemp, initJob, List.chain'_cons,
          List.chain'_singleton]
      · intro h
        simp [run_render_task_final, applyFail, removeTemp] at h
    | none =>
      cases p with
      | some m =>
        constructor
        · simp only [run_render_task_trace, List.map_append, List.map_cons, List.map_nil,
            progressSnapshots_map_progress, foldl_progress, applyFail, removeTemp, initJob]
          exact chain'_le_block 0 _ _ (engine_progress_updates_chain n)
            (fun z hz => by simp [Option.mem_def.mp hz])
            (fun z _ => Nat.zero_le z)
        · intro h
          simp [run_render_task_final, applyFail, removeTemp, foldl_progress] at h
      | none =>
        constructor
        · simp only [run_render_task_trace, List.map_append, List.map_cons, List.map_nil,
            progressSnapshots_map_progress, foldl_progress, jobSuccess, removeTemp, initJob]
          exact chain'_le_block 0 100 _ (engine_progress_updates_chain n)
            (fun z hz => engine_progress_updates_le (List.mem_of_mem_getLast? hz))
            (fun z _ => Nat.zero_le z)
        · intro _
          rfl

/-- C8 witness: a fully successful two-segment job has monotone progress
`0,0,0,0,50,100,100,100` and finishes completed with progress 100. -/
theorem job_progress_monotone_witness :
    List.Chain' (· ≤ ·)
      ((run_render_task_trace "j1" none none none (engine_progress_updates 2) initJob).map
        JobRec.progress) ∧
    (run_render_task_final "j1" none none none (engine_progress_updates 2) initJob).progress =
      100 := by
  obtain ⟨h1, h2⟩ := job_progress_monotone "j1" none none none 2
  exact ⟨h1, h2 rfl⟩

/-- C8 counterexample: when both merge invocations fail after every segment
completed, the `"Merge failed"` exception freezes progress at 100 while the
status is `failed`, so progress 100 does not imply status `completed`. -/
theorem job_progress_monotone_counterexample :
    (run_render_task_final "j1" none none (some ("Merge failed"))
        (engine_progress_updates 2) initJob).progress = 100 ∧
    (run_render_task_final "j1" none none (some ("Merge failed"))
        (engine_progress_updates 2) initJob).status = "failed" := by
  constructor
  · rfl
  · rfl

/-- C9 (amended): the phase history of every job whose analysis phase does
not raise contains `benchmarking`: the server benchmarks unconditionally
(the job-submission interface has no serial-baseline option), and the phase
never transitions directly from `analyzing` to `parallel` — `benchmarking`
always sits in between, as the three-snapshot prefix shows. -/
theorem job_phase_benchmarking_unconditional (jid : String) (b p : Option String)
    (upd : List ℕ) :
    ((run_render_task_trace jid none b p upd initJob).map JobRec.phase).take 3 =
      ["queued", "analyzing", "benchmarking"] ∧
    "benchmarking" ∈
      (run_render_task_trace jid none b p upd initJob).map JobRec.phase := by
  cases b with
  | some m =>
    constructor
    · simp [run_render_task_trace, applyFail, removeTemp, initJob]
    · simp [run_render_task_trace, applyFail, removeTemp, initJob, List.mem_cons]
  | none =>
    cases p with
    | some m =>
      constructor
      · simp [run_render_task_trace, applyFail, removeTemp, initJob]
      · simp [run_render_task_trace, applyFail, removeTemp, initJob, List.mem_cons,
          List.mem_append]
    | none =>
      constructor
      · simp [run_render_task_trace, jobSuccess, removeTemp, initJob]
      · simp [run_render_task_trace, jobSuccess, removeTemp, initJob, List.mem_cons,
          List.mem_append]

/-- C9 counterexample: a successful job submitted through an interface that
offers no way to request a serial baseline still records the phase sequence
`queued, analyzing, benchmarking, parallel, ..., completed`: `benchmarking`
appears and `analyzing` is not followed directly by `parallel`. -/
theorem job_phase_benchmarking_counterexample :
    (run_render_task_trace "j1" none none none (engine_progress_updates 2) initJob).map
        JobRec.phase =
      ["queued", "analyzing", "benchmarking", "parallel", "parallel", "parallel",
        "completed", "completed"] := by
  rfl
